import Mathlib

/-
Verification of the retrieval-augmented question-answering pipeline
(`src/rag_assistant`): a shallow embedding of the Python modules
`qa.py`, `pipeline.py`, `memory.py`, `config.py`, `llm_providers.py`
and `api.py`, together with theorems settling the specified properties.

Python strings are modelled as lists of Unicode code points (`List Nat`);
character classes (`\w`, `\s`, `str.lower`) are modelled on the ASCII
range, which covers every string constant appearing in the program.
-/

/-- Model of a Python string: its sequence of Unicode code points. -/
abbrev PyStr := List Nat

/-- Code-point sequence of a Lean string literal. -/
def String.toCodes (s : String) : PyStr := s.toList.map Char.toNat

namespace RagSpec

/-- Whitespace code points, as matched by Python regex class backslash-s
and by str.split / str.strip (ASCII range: space, tab, LF, VT, FF, CR). -/
def isSpaceCp (c : Nat) : Bool := decide (c = 32 ∨ (9 ≤ c ∧ c ≤ 13))

/-- Word code points, as matched by Python regex class backslash-w
(ASCII range: digits, letters, underscore). -/
def isWordCp (c : Nat) : Bool :=
  decide ((48 ≤ c ∧ c ≤ 57) ∨ (65 ≤ c ∧ c ≤ 90) ∨ (97 ≤ c ∧ c ≤ 122) ∨ c = 95)

/-- Decimal digit code points (regex class backslash-d, ASCII). -/
def isDigitCp (c : Nat) : Bool := decide (48 ≤ c ∧ c ≤ 57)

/-- Lower-casing of one code point, as in Python str.lower (ASCII range). -/
def lowerCp (c : Nat) : Nat := if 65 ≤ c ∧ c ≤ 90 then c + 32 else c

/-- Upper-casing of one code point, as in Python str.upper (ASCII range). -/
def upperCp (c : Nat) : Nat := if 97 ≤ c ∧ c ≤ 122 then c - 32 else c

/-- Python str.lower. -/
def pyLower (s : PyStr) : PyStr := s.map lowerCp

/-- Python str.upper. -/
def pyUpper (s : PyStr) : PyStr := s.map upperCp

/-- Python str.strip with no argument: drop whitespace from both ends. -/
def pyStrip (s : PyStr) : PyStr :=
  ((s.dropWhile isSpaceCp).reverse.dropWhile isSpaceCp).reverse

/-- Python sep.join(xs): concatenate the pieces with the separator between
consecutive pieces. -/
def joinSep (sep : PyStr) : List PyStr → PyStr
  | [] => []
  | [t] => t
  | t :: t2 :: ts => t ++ sep ++ joinSep sep (t2 :: ts)

/-- Helper for maximal-run splitting: returns the run of p-characters at
the head of the text together with the runs of the remainder after that
run and the following separator block. -/
def runsSpan (p : Nat → Bool) : PyStr → PyStr × List PyStr
  | [] => ([], [])
  | c :: rest =>
    let s := runsSpan p rest
    if p c then (c :: s.1, s.2)
    else ([], if s.1 = [] then s.2 else s.1 :: s.2)

/-- Maximal runs of consecutive code points satisfying p.  With p the
negation of whitespace this is Python str.split(); with p the word class
it lists the matches of the regex backslash-b backslash-w+ backslash-b. -/
def runsBy (p : Nat → Bool) (l : PyStr) : List PyStr :=
  let s := runsSpan p l
  if s.1 = [] then s.2 else s.1 :: s.2

/-- Python str.split() with no argument: whitespace-separated tokens. -/
def pySplit (s : PyStr) : List PyStr := runsBy (fun c => !isSpaceCp c) s

/-- Model of pipeline._count_words: the number of matches of the regex
backslash-b backslash-w+ backslash-b, i.e. of maximal word-character runs. -/
def countWords (s : PyStr) : Nat := (runsBy isWordCp s).length

/-- Model of pipeline._normalize_no_punct: delete every character that is
neither a word character nor whitespace, then re-join the whitespace-split
tokens with single spaces. -/
def normalizeNoPunct (s : PyStr) : PyStr :=
  joinSep (" ".toCodes) (pySplit (s.filter (fun c => isWordCp c || isSpaceCp c)))

/-- Retrieved document as produced by the Chroma vector store in qa.py:
page content plus the metadata fields the code reads (source, page).
Distances are attached separately as the second pair component. -/
structure Doc where
  content : PyStr
  source : Option PyStr
  page : Option Int
deriving DecidableEq

/-- Entry of the sources list returned by qa.run_qa: a plain path string
when include_scores is false, or a scored record (path, page, cosine
distance) when include_scores is true.  The distance type is an arbitrary
linear order standing for IEEE floats. -/
inductive QASource (α : Type) where
  | plain (path : PyStr)
  | scored (path : PyStr) (page : Option Int) (score : α)
deriving DecidableEq

/-- Model of qa.py line 62: the extractive context obtained by joining the
non-empty page contents with newlines and stripping the result. -/
def stitchedOf (docs : List Doc) : PyStr :=
  pyStrip (joinSep ("\n".toCodes)
    (docs.filterMap (fun d => if d.content = [] then none else some d.content)))

/-- Exact refusal text returned by qa.run_qa. -/
def refusalText : PyStr := "No relevant context found.".toCodes

/-- Model of qa.run_qa after retrieval: `results` is the value of
vs.similarity_search_with_score (document/distance pairs), maxDist and
minChars are the NO_ANSWER_MAX_DIST / NO_ANSWER_MIN_CHARS tunables
(defaults 1.25 and 80).  Returns the (answer, sources) pair. -/
def runQA {α : Type} [LinearOrder α] (results : List (Doc × α))
    (includeScores : Bool) (maxDist : α) (minChars : Nat) :
    PyStr × List (QASource α) :=
  let docs := results.map Prod.fst
  if docs = [] then (refusalText, [])
  else
    let stitched := stitchedOf docs
    let sources : List (QASource α) :=
      if !includeScores then
        docs.map (fun d => QASource.plain (d.source.getD ("?".toCodes)))
      else
        results.map (fun r => QASource.scored (r.1.source.getD ("?".toCodes)) r.1.page r.2)
    let topd : Option α := results.head?.map Prod.snd
    if (match topd with
        | some d => decide (maxDist < d)
        | none => false) && decide (stitched.length < minChars) then
      (refusalText, if includeScores then sources else [])
    else
      ((if stitched = [] then refusalText else stitched), sources)

/-- Record stored per session id by memory.SessionMemory: the recent turns
(question/answer pairs) and the rolling summary. -/
structure SessionRecord where
  turns : List (PyStr × PyStr)
  summary : PyStr
deriving DecidableEq

/-- Freshly created session record: no turns, empty summary. -/
def emptyRecord : SessionRecord := ⟨[], []⟩

/-- Line appended to the summary when a turn is evicted
(memory.py line 24). -/
def summaryLine (t : PyStr × PyStr) : PyStr :=
  "Q: ".toCodes ++ t.1 ++ " A: ".toCodes ++ t.2 ++ "\n".toCodes

/-- Model of SessionMemory.add_turn on one session record: append the new
turn; if the deque now holds more than max_turns entries, pop the oldest
and fold it into the summary. -/
def addTurn (maxTurns : Nat) (r : SessionRecord) (q a : PyStr) : SessionRecord :=
  let turns1 := r.turns ++ [(q, a)]
  if maxTurns < turns1.length then
    match turns1 with
    | [] => ⟨[], r.summary⟩
    | old :: rest => ⟨rest, r.summary ++ summaryLine old⟩
  else ⟨turns1, r.summary⟩

/-- Process-wide session store (the _sessions dict, insertion ordered). -/
abbrev Store := List (PyStr × SessionRecord)

/-- Dictionary lookup in the session store. -/
def lookupStore (st : Store) (sid : PyStr) : Option SessionRecord :=
  (st.find? (fun e => e.1 == sid)).map Prod.snd

/-- Model of SessionMemory._ensure_session: create an empty record for an
unseen session id. -/
def ensureSession (st : Store) (sid : PyStr) : Store :=
  if (lookupStore st sid).isSome then st else st ++ [(sid, emptyRecord)]

/-- Rendering of one recent turn in get_context (memory.py line 35). -/
def renderTurn (t : PyStr × PyStr) : PyStr :=
  "Q: ".toCodes ++ t.1 ++ "\nA: ".toCodes ++ t.2 ++ "\n".toCodes

/-- Context text assembled by SessionMemory.get_context before stripping. -/
def rawContext (r : SessionRecord) : PyStr :=
  (if r.summary = [] then []
   else ("Conversation summary:\n".toCodes ++ r.summary ++ "\n".toCodes)) ++
  (if r.turns = [] then []
   else ("Recent turns:\n".toCodes ++ (r.turns.map renderTurn).flatten))

/-- Model of SessionMemory.get_context: ensure the session exists, then
render summary and recent turns and strip the result.  The updated store
is returned alongside, modelling the mutation done by _ensure_session. -/
def getContext (st : Store) (sid : PyStr) : PyStr × Store :=
  let st' := ensureSession st sid
  (pyStrip (rawContext ((lookupStore st' sid).getD emptyRecord)), st')

/-- Hard-coded default system prompt _DEF_PROMPT in pipeline.py. -/
def defPrompt : PyStr :=
  "You are a helpful RAG assistant. Use only the provided context. Cite file paths you used in a \x27sources\x27 list.".toCodes

/-- Model of pipeline._load_system_prompt: the stripped file text when the
configured file is readable, else the hard-coded default. -/
def loadSystemPrompt (fileText : Option PyStr) : PyStr :=
  match fileText with
  | some t => pyStrip t
  | none => defPrompt

/-- CPython repr of a string (single-quoted); escaping of quotes,
backslashes and control characters inside the content is not modelled, so
this is faithful for path strings free of those characters. -/
def pyReprStr (s : PyStr) : PyStr := 39 :: (s ++ [39])

/-- CPython repr of a list of strings, as interpolated by the f-string
`Sources you may cite ...` in pipeline.py. -/
def pyListRepr (xs : List PyStr) : PyStr :=
  "[".toCodes ++ joinSep (", ".toCodes) (xs.map pyReprStr) ++ "]".toCodes

/-- Fixed text of the user prompt up to and including the
`QUESTION: ` label (pipeline.py lines 162-163). -/
def promptPreQuestion : PyStr :=
  "Answer using ONLY the CONTEXT below. If context is insufficient, say so and do not fabricate sources.\n\nQUESTION: ".toCodes

/-- Remainder of the user prompt after the question (pipeline.py
lines 164-168): return-format note, JSON contract, context and the
citable sources. -/
def promptAfterQuestion (rf context : PyStr) (sources : List PyStr) : PyStr :=
  "\n\nRETURN_FORMAT: ".toCodes ++ pyUpper rf ++
  "  # \x27TEXT\x27 for plain language, \x27JSON\x27 for a strict object\n\nJSON contract when RETURN_FORMAT == JSON:\n  \x7b \"answer\": str, \"sources\": [str] \x7d\n\nCONTEXT:\n".toCodes ++
  context ++
  "\n\nSources you may cite (paths/ids): ".toCodes ++ pyListRepr sources

/-- Model of the user_prompt f-string composed in run_pipeline. -/
def userPrompt (question rf context : PyStr) (sources : List PyStr) : PyStr :=
  promptPreQuestion ++ question ++ promptAfterQuestion rf context sources

/-- Composed generation prompt: run_pipeline passes (system_prompt,
user_prompt) to prov.generate, which presents the system message before
the user message; the composed prompt is their in-order concatenation. -/
def composedPrompt (sys user : PyStr) : PyStr := sys ++ user

/-- Index of the first occurrence of needle in hay (Python str.index /
index_of), as the least i with needle a prefix of hay.drop i. -/
def firstIdxOf (needle hay : PyStr) : Option Nat :=
  (List.range (hay.length + 1)).find? (fun i => decide (needle <+: hay.drop i))

/-- Boolean form of the claimed prompt-composition property at one input:
the system policy text occurs first at offset 0 and the first occurrence
of the question is at a strictly larger offset. -/
def c3At (sys question rf context : PyStr) (sources : List PyStr) : Bool :=
  let p := composedPrompt sys (userPrompt question rf context sources)
  decide (firstIdxOf sys p = some 0) &&
    (match firstIdxOf question p with
     | some j => decide (0 < j)
     | none => false)

/-- Document as consumed by pipeline._extract_sources: page content plus
the metadata fields the code reads. -/
structure PDoc where
  pageContent : PyStr
  metaSource : Option PyStr
  metaFilePath : Option PyStr
  metaPath : Option PyStr
  metaPdfPath : Option PyStr
deriving DecidableEq

/-- Truthiness filter on an optional string: None and the empty string are
falsy (Python `or` chains and `if s:`). -/
def truthyOpt (o : Option PyStr) : Option PyStr :=
  match o with
  | some s => if s = [] then none else some s
  | none => none

/-- Source path chosen by _extract_sources for one document: the first
truthy value among metadata source, file_path, path, pdf_path. -/
def srcOf (d : PDoc) : Option PyStr :=
  (truthyOpt d.metaSource).orElse (fun _ =>
    (truthyOpt d.metaFilePath).orElse (fun _ =>
      (truthyOpt d.metaPath).orElse (fun _ => truthyOpt d.metaPdfPath)))

/-- Model of pipeline._unique: keep the first occurrence of each truthy
string, tracking the already-seen set. -/
def uniqueKeep (seen : List PyStr) : List PyStr → List PyStr
  | [] => []
  | x :: xs =>
    if x ≠ [] ∧ x ∉ seen then x :: uniqueKeep (x :: seen) xs
    else uniqueKeep seen xs

/-- Model of pipeline._extract_sources: collect the truthy source paths of
the documents and deduplicate them with _unique. -/
def extractSources (docs : List PDoc) : List PyStr :=
  uniqueKeep [] (docs.filterMap srcOf)

/-- Value of the decimal digit string captured by the directive regex. -/
def digitsToNat (ds : PyStr) : Nat := ds.foldl (fun acc d => acc * 10 + (d - 48)) 0

/-- Case-insensitive match of a (lowercase) literal at the head of the
text; returns the rest of the text on success. -/
def matchLit : PyStr → PyStr → Option PyStr
  | [], rest => some rest
  | _ :: _, [] => none
  | c :: cs, x :: xs => if lowerCp x = c then matchLit cs xs else none

/-- Match of the regex `exactly backslash-s+ (backslash-d+) backslash-s+ words`
(flag re.I) anchored at the head of the text, returning the captured
number.  The greedy quantifiers never backtrack here because the
character classes of adjacent pieces are disjoint. -/
def matchDirAt (l : PyStr) : Option Nat :=
  match matchLit ("exactly".toCodes) l with
  | none => none
  | some r1 =>
    if r1.takeWhile isSpaceCp = [] then none
    else
      let r2 := r1.dropWhile isSpaceCp
      let ds := r2.takeWhile isDigitCp
      if ds = [] then none
      else
        let r3 := r2.dropWhile isDigitCp
        if r3.takeWhile isSpaceCp = [] then none
        else
          match matchLit ("words".toCodes) (r3.dropWhile isSpaceCp) with
          | none => none
          | some _ => some (digitsToNat ds)

/-- Model of re.search for the exact-words directive: leftmost match over
all start offsets. -/
def searchDirective (q : PyStr) : Option Nat :=
  (List.range (q.length + 1)).findSome? (fun i => matchDirAt (q.drop i))

/-- Corrective re-generation loop of _maybe_force_exact_words: each list
entry is the outcome of the generate call of one provider (error models a
raised exception); the first normalized output with exactly n words is
returned. -/
def tryFix (n : Nat) : List (Except Unit PyStr) → Option PyStr
  | [] => none
  | Except.error _ :: rest => tryFix n rest
  | Except.ok f :: rest =>
    let fn := normalizeNoPunct f
    if countWords fn = n then some fn else tryFix n rest

/-- Model of pipeline._maybe_force_exact_words: when the question carries
an `exactly N words` directive, normalize the answer, try one corrective
pass over the provider stack, and finally trim to N words when too long
(an answer with fewer words is returned unchanged). -/
def maybeForceExactWords (provs : List (Except Unit PyStr))
    (question answer : PyStr) : PyStr :=
  match searchDirective question with
  | none => answer
  | some n =>
    let norm := normalizeNoPunct answer
    if countWords norm = n then norm
    else
      match tryFix n provs with
      | some fixedNorm => fixedNorm
      | none =>
        let parts := pySplit norm
        if n < parts.length then joinSep (" ".toCodes) (parts.take n) else norm

/-- Output of providers/mock.MockProvider.generate, the single provider on
the stack returned by providers.get_provider_stack; the interpolated path
is Path("data/test.txt").resolve(), which depends on the working
directory. -/
def mockProviderOutput (resolvedPath : PyStr) : PyStr :=
  "\x7b\n            \"answer\": \"This is a test response that cites sources properly\",\n            \"sources\": [\"".toCodes ++
  resolvedPath ++ "\"]\n        \x7d".toCodes

/-- Provider names known to llm_providers.get_provider. -/
def knownProviders : List PyStr :=
  ["openai".toCodes, "groq".toCodes, "gemini".toCodes]

/-- Value of the LLM_PROVIDER attribute on config.settings: the Settings
dataclass declares no such field, so the attribute is missing and reading
it raises AttributeError (modelled by none). -/
def configLLMProvider : Option PyStr := none

/-- Model of llm_providers.safe_complete.  llmProviderAttr is the value of
settings.LLM_PROVIDER when the attribute exists (none models the
AttributeError raised on the real Settings object); keyPresent says
whether the API key of the selected provider is set; callOutcome is the result
of the underlying client call (error models a raised exception, which
the complete method of every provider catches, returning the empty string).  Any
exception inside the body is caught by the final except, which also
returns the empty string. -/
def safeComplete (llmProviderAttr : Option PyStr) (keyPresent : Bool)
    (callOutcome : Except Unit PyStr) : PyStr :=
  match llmProviderAttr with
  | none => []
  | some v =>
    let prov := pyLower (if v = [] then ("none".toCodes) else v)
    if prov = "none".toCodes then []
    else if prov ∈ knownProviders then
      if keyPresent then
        match callOutcome with
        | Except.ok s => s
        | Except.error _ => []
      else []
    else []

/-- Model of config._env: the environment value unless it is unset or
empty, else the default. -/
def envDefault (v : Option PyStr) (d : PyStr) : PyStr :=
  match v with
  | none => d
  | some s => if s = [] then d else s

/-- RETRIEVAL_MODE of the constructed Settings object as a function of the
environment variable: the field initializer lower-cases the value, and
post-init replaces anything outside the knn/mmr set with knn. -/
def retrievalModeOf (env : Option PyStr) : PyStr :=
  let m := pyLower (envDefault env ("knn".toCodes))
  if pyLower m = "knn".toCodes ∨ pyLower m = "mmr".toCodes then m
  else ("knn".toCodes)

/-- DEFAULT_RETURN_FORMAT of the constructed Settings object as a function
of the environment variable, normalized to the text/json set. -/
def returnFormatOf (env : Option PyStr) : PyStr :=
  let f := pyLower (envDefault env ("text".toCodes))
  if pyLower f = "text".toCodes ∨ pyLower f = "json".toCodes then f
  else ("text".toCodes)

/-- Python exception kinds relevant to the embedded fragment. -/
inductive PyError where
  | typeError
  | attributeError
deriving DecidableEq

/-- Parameters of pipeline.run_pipeline (pipeline.py line 143). -/
def runPipelineParams : List PyStr :=
  ["question".toCodes, "return_format".toCodes]

/-- Keyword arguments passed to run_pipeline by api.ask (api.py
line 158). -/
def askRunPipelineKwargs : List PyStr :=
  ["return_format".toCodes, "session_context".toCodes]

/-- Python call binding: every keyword argument must name a parameter of
the callee, otherwise the call raises TypeError. -/
def kwargsBindOk (params kwargs : List PyStr) : Bool :=
  kwargs.all (fun k => params.contains k)

/-- Model of api.ask: resolve the session id (a fresh uuid when absent),
read the session context, then call run_pipeline with the keyword
arguments written in api.py; pipelineResult abstracts the value
run_pipeline would produce if the call bound successfully.  api.ask
installs no exception handler, so a binding failure propagates. -/
def askModel (store : Store) (_question : PyStr) (sessionId : Option PyStr)
    (freshId : PyStr) (pipelineResult : PyStr × List PyStr) :
    Except PyError (PyStr × List PyStr) :=
  let sid := sessionId.getD freshId
  let _sessionContext := (getContext store sid).1
  if kwargsBindOk runPipelineParams askRunPipelineKwargs then
    Except.ok pipelineResult
  else Except.error PyError.typeError

end RagSpec

set_option maxRecDepth 4000

namespace RagSpec

theorem space_toCodes : " ".toCodes = [32] := rfl

theorem runsSpan_append_all {p : Nat → Bool} {t : PyStr} (l : PyStr)
    (ht : ∀ c ∈ t, p c = true) :
    runsSpan p (t ++ l) = (t ++ (runsSpan p l).1, (runsSpan p l).2) := by
  induction t with
  | nil => simp
  | cons c cs ih =>
    have hc : p c = true := ht c (by simp)
    have ih' := ih (fun d hd => ht d (by simp [hd]))
    simp [runsSpan, ih', hc]

theorem runsSpan_cons_not {p : Nat → Bool} {sep : Nat} (l : PyStr)
    (hsep : p sep = false) :
    runsSpan p (sep :: l) = ([], runsBy p l) := by
  simp [runsSpan, runsBy, hsep]

theorem runsBy_all_pos {p : Nat → Bool} {t : PyStr} (hne : t ≠ [])
    (ht : ∀ c ∈ t, p c = true) : runsBy p t = [t] := by
  have h := runsSpan_append_all (p := p) [] ht
  simp only [List.append_nil, runsSpan] at h
  simp [runsBy, h, hne]

theorem runsBy_append_sep {p : Nat → Bool} {t : PyStr} {sep : Nat} (l : PyStr)
    (hsep : p sep = false) (hne : t ≠ []) (ht : ∀ c ∈ t, p c = true) :
    runsBy p (t ++ sep :: l) = t :: runsBy p l := by
  have h1 := runsSpan_append_all (p := p) (sep :: l) ht
  rw [runsSpan_cons_not l hsep] at h1
  simp only [List.append_nil] at h1
  simp [runsBy, h1, hne]

theorem runsBy_joinSep {p : Nat → Bool} {sep : Nat} (hsep : p sep = false) :
    ∀ ts : List PyStr, (∀ t ∈ ts, t ≠ [] ∧ ∀ c ∈ t, p c = true) →
      runsBy p (joinSep [sep] ts) = ts
  | [], _ => by simp [joinSep, runsBy, runsSpan]
  | [t], h => by
    simp only [joinSep]
    exact runsBy_all_pos (h t (by simp)).1 (h t (by simp)).2
  | t :: t2 :: ts, h => by
    have ht := h t (by simp)
    have hrest : ∀ u ∈ t2 :: ts, u ≠ [] ∧ ∀ c ∈ u, p c = true :=
      fun u hu => h u (by simp [List.mem_cons] at hu ⊢; tauto)
    have hj : joinSep [sep] (t :: t2 :: ts) = t ++ sep :: joinSep [sep] (t2 :: ts) := by
      simp [joinSep]
    rw [hj, runsBy_append_sep _ hsep ht.1 ht.2, runsBy_joinSep hsep (t2 :: ts) hrest]

theorem runsSpan_mem {p : Nat → Bool} :
    ∀ l : PyStr,
      (∀ c ∈ (runsSpan p l).1, p c = true ∧ c ∈ l) ∧
      (∀ t ∈ (runsSpan p l).2, t ≠ [] ∧ ∀ c ∈ t, p c = true ∧ c ∈ l)
  | [] => by simp [runsSpan]
  | c :: rest => by
    obtain ⟨ih1, ih2⟩ := runsSpan_mem (p := p) rest
    by_cases hc : p c = true
    · constructor
      · intro d hd
        rw [show runsSpan p (c :: rest) = (c :: (runsSpan p rest).1, (runsSpan p rest).2) by
          simp [runsSpan, hc]] at hd
        rcases List.mem_cons.mp hd with rfl | hd'
        · exact ⟨hc, by simp⟩
        · exact ⟨(ih1 d hd').1, by simp [(ih1 d hd').2]⟩
      · intro t ht
        rw [show runsSpan p (c :: rest) = (c :: (runsSpan p rest).1, (runsSpan p rest).2) by
          simp [runsSpan, hc]] at ht
        obtain ⟨hne, hin⟩ := ih2 t ht
        exact ⟨hne, fun d hd => ⟨(hin d hd).1, by simp [(hin d hd).2]⟩⟩
    · have hc' : p c = false := Bool.eq_false_iff.mpr hc
      constructor
      · intro d hd
        rw [show runsSpan p (c :: rest) =
            ([], if (runsSpan p rest).1 = [] then (runsSpan p rest).2
                 else (runsSpan p rest).1 :: (runsSpan p rest).2) by
          simp [runsSpan, hc']] at hd
        simp at hd
      · intro t ht
        rw [show runsSpan p (c :: rest) =
            ([], if (runsSpan p rest).1 = [] then (runsSpan p rest).2
                 else (runsSpan p rest).1 :: (runsSpan p rest).2) by
          simp [runsSpan, hc']] at ht
        simp only at ht
        split at ht
        · obtain ⟨hne, hin⟩ := ih2 t ht
          exact ⟨hne, fun d hd => ⟨(hin d hd).1, by simp [(hin d hd).2]⟩⟩
        · rcases List.mem_cons.mp ht with rfl | ht'
          · next hne =>
            exact ⟨hne, fun d hd => ⟨(ih1 d hd).1, by simp [(ih1 d hd).2]⟩⟩
          · obtain ⟨hne, hin⟩ := ih2 t ht'
            exact ⟨hne, fun d hd => ⟨(hin d hd).1, by simp [(hin d hd).2]⟩⟩

theorem runsBy_mem {p : Nat → Bool} {l : PyStr} :
    ∀ t ∈ runsBy p l, t ≠ [] ∧ ∀ c ∈ t, p c = true ∧ c ∈ l := by
  obtain ⟨h1, h2⟩ := runsSpan_mem (p := p) l
  intro t ht
  by_cases hfst : (runsSpan p l).1 = []
  · rw [show runsBy p l = (runsSpan p l).2 by simp [runsBy, hfst]] at ht
    exact h2 t ht
  · rw [show runsBy p l = (runsSpan p l).1 :: (runsSpan p l).2 by
      simp [runsBy, hfst]] at ht
    rcases List.mem_cons.mp ht with rfl | ht'
    · exact ⟨hfst, fun c hc => h1 c hc⟩
    · exact h2 t ht'

theorem word_not_space {c : Nat} (h : isWordCp c = true) : isSpaceCp c = false := by
  simp only [isWordCp, decide_eq_true_eq] at h
  simp only [isSpaceCp, decide_eq_false_iff_not]
  omega

theorem pySplit_filter_tokens (s : PyStr) :
    ∀ t ∈ pySplit (s.filter (fun c => isWordCp c || isSpaceCp c)),
      t ≠ [] ∧ ∀ c ∈ t, isWordCp c = true := by
  intro t ht
  have h := runsBy_mem (p := fun c => !isSpaceCp c)
    (l := s.filter (fun c => isWordCp c || isSpaceCp c)) t ht
  refine ⟨h.1, fun c hc => ?_⟩
  obtain ⟨hns, hmem⟩ := h.2 c hc
  have hk : (isWordCp c || isSpaceCp c) = true := (List.mem_filter.mp hmem).2
  rw [Bool.or_eq_true] at hk
  rcases hk with hw | hs
  · exact hw
  · simp [hs] at hns

theorem pySplit_normalize (s : PyStr) :
    pySplit (normalizeNoPunct s) =
      pySplit (s.filter (fun c => isWordCp c || isSpaceCp c)) := by
  unfold normalizeNoPunct
  show runsBy _ (joinSep (" ".toCodes) _) = _
  rw [space_toCodes]
  exact runsBy_joinSep (by decide) _
    (fun t ht => ⟨(pySplit_filter_tokens s t ht).1,
      fun c hc => by
        have hw := (pySplit_filter_tokens s t ht).2 c hc
        simp [word_not_space hw]⟩)

theorem countWords_joinSep_tokens {ts : List PyStr}
    (h : ∀ t ∈ ts, t ≠ [] ∧ ∀ c ∈ t, isWordCp c = true) :
    countWords (joinSep (" ".toCodes) ts) = ts.length := by
  unfold countWords
  rw [space_toCodes, runsBy_joinSep (by decide) ts h]

theorem countWords_normalize (s : PyStr) :
    countWords (normalizeNoPunct s) =
      (pySplit (s.filter (fun c => isWordCp c || isSpaceCp c))).length := by
  unfold normalizeNoPunct
  exact countWords_joinSep_tokens (pySplit_filter_tokens s)

theorem tryFix_countWords {n : Nat} :
    ∀ provs (s : PyStr), tryFix n provs = some s → countWords s = n
  | [], s => by simp [tryFix]
  | Except.error e :: rest, s => by
    simpa [tryFix] using tryFix_countWords rest s
  | Except.ok f :: rest, s => by
    simp only [tryFix]
    split
    · intro h
      cases h
      assumption
    · exact tryFix_countWords rest s

theorem lowerCp_idem (c : Nat) : lowerCp (lowerCp c) = lowerCp c := by
  unfold lowerCp
  by_cases h : 65 ≤ c ∧ c ≤ 90
  · rw [if_pos h, if_neg (by omega)]
  · rw [if_neg h, if_neg h]

theorem pyLower_idem (s : PyStr) : pyLower (pyLower s) = pyLower s := by
  induction s with
  | nil => rfl
  | cons c cs ih =>
    simp only [pyLower, List.map_cons] at *
    rw [lowerCp_idem]
    exact congrArg _ ih

theorem uniqueKeep_nodup_avoid : ∀ (l : List PyStr) (seen : List PyStr),
    (uniqueKeep seen l).Nodup ∧ ∀ x ∈ uniqueKeep seen l, x ∉ seen
  | [], seen => by simp [uniqueKeep]
  | x :: xs, seen => by
    by_cases h : x ≠ [] ∧ x ∉ seen
    · obtain ⟨ih1, ih2⟩ := uniqueKeep_nodup_avoid xs (x :: seen)
      simp only [uniqueKeep, if_pos h]
      constructor
      · exact List.nodup_cons.mpr ⟨fun hx => (ih2 x hx) (by simp), ih1⟩
      · intro y hy
        rcases List.mem_cons.mp hy with rfl | hy'
        · exact h.2
        · intro hseen
          exact ih2 y hy' (by simp [hseen])
    · obtain ⟨ih1, ih2⟩ := uniqueKeep_nodup_avoid xs seen
      simp only [uniqueKeep, if_neg h]
      exact ⟨ih1, ih2⟩

theorem pyStrip_last_not_space {s : PyStr} {c : Nat}
    (h : (pyStrip s).getLast? = some c) : isSpaceCp c = false := by
  unfold pyStrip at h
  rw [List.getLast?_reverse] at h
  have h2 := List.head?_dropWhile_not isSpaceCp (s.dropWhile isSpaceCp).reverse
  rw [h] at h2
  exact h2

theorem pyStrip_head_not_space {s : PyStr} {c : Nat}
    (h : (pyStrip s).head? = some c) : isSpaceCp c = false := by
  have hsuf : ((s.dropWhile isSpaceCp).reverse.dropWhile isSpaceCp) <:+
      (s.dropWhile isSpaceCp).reverse := List.dropWhile_suffix _
  have hpre : pyStrip s <+: s.dropWhile isSpaceCp := by
    have := List.reverse_prefix.mpr hsuf
    rwa [List.reverse_reverse] at this
  obtain ⟨tl, htl⟩ := hpre
  have hh : (s.dropWhile isSpaceCp).head? = some c := by
    rw [← htl]
    cases hps : pyStrip s with
    | nil => rw [hps] at h; simp at h
    | cons a l =>
      rw [hps] at h
      simp at h
      simp [h]
  have h2 := List.head?_dropWhile_not isSpaceCp s
  rw [hh] at h2
  exact h2

theorem addTurn_length_le {N : Nat} {r : SessionRecord} (h : r.turns.length ≤ N)
    (q a : PyStr) : (addTurn N r q a).turns.length ≤ N := by
  unfold addTurn
  simp only
  split
  · next hlt =>
    split
    · next heq => simp at heq
    · next old rest heq =>
      have hlen : r.turns.length + 1 = rest.length + 1 := by
        have := congrArg List.length heq
        simpa using this
      simp only
      omega
  · next hge =>
    simp only [List.length_append, List.length_cons, List.length_nil] at hge ⊢
    omega

theorem foldl_addTurn_length {N : Nat} :
    ∀ (ops : List (PyStr × PyStr)) (r : SessionRecord), r.turns.length ≤ N →
      ((ops.foldl (fun st t => addTurn N st t.1 t.2) r).turns.length ≤ N)
  | [], _, h => h
  | op :: ops, _r, h =>
    foldl_addTurn_length ops _ (addTurn_length_le h op.1 op.2)

theorem addTurn_summary_grows (N : Nat) (r : SessionRecord) (q a : PyStr) :
    r.summary <+: (addTurn N r q a).summary := by
  unfold addTurn
  simp only
  split
  · split
    · exact List.prefix_rfl
    · exact List.prefix_append _ _
  · exact List.prefix_rfl

/-- C1: the claim says api.ask never raises an unhandled error; in the
code, ask calls run_pipeline with the keyword argument session_context,
which run_pipeline does not accept, so Python raises TypeError on every
request.  The theorem evaluates the model of ask at every input (in
particular at the failing input question "What is this project?",
session_id absent) and shows the TypeError. -/
theorem C1_ask_always_raises (store : Store) (question : PyStr)
    (sessionId : Option PyStr) (freshId : PyStr)
    (pipelineResult : PyStr × List PyStr) :
    askModel store question sessionId freshId pipelineResult =
      Except.error PyError.typeError := by
  have h : kwargsBindOk runPipelineParams askRunPipelineKwargs = false := by decide
  simp [askModel, h]

/-- C2 counterexample: with zero retrieval hits, run_qa returns the
literal "No relevant context found.", which is not the claimed string
the claimed I-do-not-know sentence. -/
theorem C2_refusal_counterexample :
    (runQA (α := ℤ) [] false 1 80).1 = refusalText ∧
    refusalText ≠ "I don\x27t know based on the provided documents.".toCodes := by
  exact ⟨rfl, by decide⟩

/-- C2 amended: for every input with zero retrieval hits, run_qa returns
exactly the refusal string "No relevant context found." together with an
empty sources list, whatever the include_scores flag and the threshold
tunables are. -/
theorem C2_refusal_amended {α : Type} [LinearOrder α] (b : Bool)
    (maxDist : α) (minChars : Nat) :
    runQA ([] : List (Doc × α)) b maxDist minChars = (refusalText, []) := rfl

/-- C3 counterexample: for the question "You", which is a prefix of the
default system policy text, the first occurrence of the question in the
composed prompt is at offset 0, not strictly after the policy text, so
the claimed index property fails. -/
theorem C3_prompt_counterexample :
    c3At defPrompt ("You".toCodes) ("text".toCodes) [] [] = false := by decide

/-- C3 amended: for every system prompt, question, return format, context
and source list, the system policy text is a prefix of the composed
prompt (offset 0), and some occurrence of the question lies at a strictly
positive offset (right after the fixed QUESTION label); only the first
occurrence of a question that happens to also occur inside the policy
text itself can sit at offset 0. -/
theorem C3_prompt_amended (sys question rf context : PyStr)
    (sources : List PyStr) :
    (sys <+: composedPrompt sys (userPrompt question rf context sources)) ∧
    ∃ i, 0 < i ∧
      question <+: (composedPrompt sys (userPrompt question rf context sources)).drop i := by
  constructor
  · exact List.prefix_append sys _
  · refine ⟨(sys ++ promptPreQuestion).length, ?_, ?_⟩
    · have h : 0 < promptPreQuestion.length := by decide
      simp only [List.length_append]
      omega
    · have hsplit : composedPrompt sys (userPrompt question rf context sources) =
          (sys ++ promptPreQuestion) ++
            (question ++ promptAfterQuestion rf context sources) := by
        simp [composedPrompt, userPrompt, List.append_assoc]
      rw [hsplit, List.drop_left]
      exact List.prefix_append question _

/-- C4: with non-empty retrieval results (and the session memory of
run_qa necessarily empty, length 0, since run_qa takes no session
input), the guard refuses — observable as an empty sources list in the
default mode — iff the top distance is known and exceeds maxDist AND the
stitched context length plus the session memory length is below
minChars. -/
theorem C4_guard_iff {α : Type} [LinearOrder α] (results : List (Doc × α))
    (maxDist : α) (minChars : Nat) (hne : results ≠ []) :
    ((runQA results false maxDist minChars).2 = [] ↔
      ((∃ d, results.head?.map Prod.snd = some d ∧ maxDist < d) ∧
       (stitchedOf (results.map Prod.fst)).length + 0 < minChars)) := by
  obtain ⟨r, rs, rfl⟩ := List.exists_cons_of_ne_nil hne
  simp only [runQA, List.map_cons, List.head?_cons, Option.map_some]
  have hdocs : (r.1 :: rs.map Prod.fst) = [] ↔ False := by simp
  rw [if_neg (by simp)]
  by_cases hlt : maxDist < r.2
  · by_cases hlen : (stitchedOf (r.1 :: rs.map Prod.fst)).length < minChars
    · rw [if_pos (by simp [hlt, hlen])]
      simp only [Bool.not_false, if_neg]
      constructor
      · intro _
        exact ⟨⟨r.2, rfl, hlt⟩, by omega⟩
      · intro _
        rfl
    · rw [if_neg (by simp [hlen])]
      constructor
      · intro h
        simp at h
      · intro ⟨_, hc⟩
        omega
  · rw [if_neg (by simp [hlt])]
    constructor
    · intro h
      simp at h
    · intro ⟨⟨d, hd, hdlt⟩, _⟩
      cases hd
      exact absurd hdlt hlt

/-- C4 witness: one retrieved document with distance 2 against threshold
1 and two characters of context triggers the refusal, matching the
right-hand side of the equivalence. -/
theorem C4_guard_iff_witness :
    (runQA (α := ℤ) [(⟨"hi".toCodes, some ("a.md".toCodes), none⟩, 2)]
      false 1 80).2 = [] :=
  (C4_guard_iff _ 1 80 (by decide)).mpr ⟨⟨2, rfl, by decide⟩, by decide⟩

/-- C5 counterexample: the question carries an "exactly 5 words"
directive, the raw answer has two words, the corrective output of the single (mock) provider does not have five words, and the finalized answer is
the unchanged two-word answer — not five tokens. -/
theorem C5_exact_words_counterexample :
    searchDirective ("write exactly 5 words".toCodes) = some 5 ∧
    maybeForceExactWords
      [Except.ok (mockProviderOutput ("/app/data/test.txt".toCodes))]
      ("write exactly 5 words".toCodes) ("hi there".toCodes) =
      "hi there".toCodes ∧
    countWords ("hi there".toCodes) = 2 := by
  exact ⟨by decide, by decide, by decide⟩

/-- C5 amended: when the question matches "exactly N words", the
finalized answer has exactly N tokens, or else it is the normalized raw
answer unchanged with fewer than N tokens (an over-long answer is
truncated to its first N words; a short one is never padded). -/
theorem C5_exact_words_amended (provs : List (Except Unit PyStr))
    (question answer : PyStr) (n : Nat)
    (hdir : searchDirective question = some n) :
    countWords (maybeForceExactWords provs question answer) = n ∨
    (maybeForceExactWords provs question answer = normalizeNoPunct answer ∧
     countWords (normalizeNoPunct answer) < n) := by
  unfold maybeForceExactWords
  rw [hdir]
  simp only
  by_cases h1 : countWords (normalizeNoPunct answer) = n
  · rw [if_pos h1]
    exact Or.inl h1
  · rw [if_neg h1]
    cases htf : tryFix n provs with
    | some s =>
      simp only [htf]
      exact Or.inl (tryFix_countWords provs s htf)
    | none =>
      simp only [htf]
      have hparts : pySplit (normalizeNoPunct answer) =
          pySplit (answer.filter (fun c => isWordCp c || isSpaceCp c)) :=
        pySplit_normalize answer
      have hcount : countWords (normalizeNoPunct answer) =
          (pySplit (normalizeNoPunct answer)).length := by
        rw [hparts]
        exact countWords_normalize answer
      by_cases h2 : n < (pySplit (normalizeNoPunct answer)).length
      · rw [if_pos h2]
        left
        have htake : ∀ t ∈ (pySplit (normalizeNoPunct answer)).take n,
            t ≠ [] ∧ ∀ c ∈ t, isWordCp c = true := by
          intro t ht
          have hin : t ∈ pySplit (normalizeNoPunct answer) :=
            List.take_subset n _ ht
          rw [hparts] at hin
          exact pySplit_filter_tokens answer t hin
        rw [countWords_joinSep_tokens htake, List.length_take]
        omega
      · rw [if_neg h2]
        right
        exact ⟨rfl, by omega⟩

/-- C5 witness for the amended statement: question "exactly 3 words",
four-word answer, no provider help — the directive matches with N = 3
and the conclusion holds (here by the truncation branch). -/
theorem C5_exact_words_amended_witness :
    countWords (maybeForceExactWords [] ("exactly 3 words".toCodes)
      ("one two three four".toCodes)) = 3 ∨
    (maybeForceExactWords [] ("exactly 3 words".toCodes)
      ("one two three four".toCodes) =
        normalizeNoPunct ("one two three four".toCodes) ∧
     countWords (normalizeNoPunct ("one two three four".toCodes)) < 3) :=
  C5_exact_words_amended [] _ _ 3 (by decide)

/-- C6 counterexample: safe_complete never raises, but on provider
failure it returns the empty string, not a fixed non-empty
FINAL_FALLBACK_TEXT (indeed the Settings object has no LLM_PROVIDER
attribute, so every call takes the exception path). -/
theorem C6_fallback_counterexample :
    safeComplete configLLMProvider true (Except.error ()) = [] := rfl

/-- C6 amended: safe_complete is total (never raises) and returns either
the successful provider output or the empty string; all failure modes —
missing LLM_PROVIDER attribute, unknown provider, missing API key, or a
client exception — yield the empty string, which the pipeline then
replaces by its extractive fallback. -/
theorem C6_safe_complete_amended (attr : Option PyStr) (key : Bool)
    (outcome : Except Unit PyStr) :
    safeComplete attr key outcome = [] ∨
    ∃ s, outcome = Except.ok s ∧ safeComplete attr key outcome = s := by
  cases attr with
  | none => exact Or.inl rfl
  | some v =>
    by_cases h1 : pyLower (if v = [] then ("none".toCodes) else v) = "none".toCodes
    · exact Or.inl (by simp [safeComplete, h1])
    · by_cases h2 : pyLower (if v = [] then ("none".toCodes) else v) ∈ knownProviders
      · cases key with
        | false => exact Or.inl (by simp [safeComplete, h1, h2])
        | true =>
          cases outcome with
          | ok s => exact Or.inr ⟨s, rfl, by simp [safeComplete, h1, h2]⟩
          | error e => exact Or.inl (by simp [safeComplete, h1, h2])
      · exact Or.inl (by simp [safeComplete, h1, h2])

/-- C7 counterexample: two hits on the same source path (pages both
absent) make run_qa return the same (source_path, page) key twice in its
sources list — the list is not duplicate-free. -/
theorem C7_dedup_counterexample :
    (runQA (α := ℤ) [(⟨"alpha".toCodes, some ("a.md".toCodes), none⟩, 0),
        (⟨"beta".toCodes, some ("a.md".toCodes), none⟩, 0)] false 1 80).2 =
      [QASource.plain ("a.md".toCodes), QASource.plain ("a.md".toCodes)] ∧
    ¬ ([QASource.plain (α := ℤ) ("a.md".toCodes),
        QASource.plain ("a.md".toCodes)].Nodup) := by
  exact ⟨by decide, by decide⟩

/-- C7 amended: the _extract_sources step of the pipeline deduplicates by the
source path string alone (the page is not part of the key), so its
output never repeats an entry; the plain sources list of run_qa is not
deduplicated at all. -/
theorem C7_dedup_amended (docs : List PDoc) : (extractSources docs).Nodup :=
  (uniqueKeep_nodup_avoid (docs.filterMap srcOf) []).1

/-- C8: starting from a fresh record, the stored turns never exceed
max_turns; add_turn only ever extends the summary (the old summary is a
prefix of the new one); and on overflow the oldest turn is evicted and
appended to the summary as a text line. -/
theorem C8_memory_bound (N : Nat) (ops : List (PyStr × PyStr))
    (r : SessionRecord) (q a : PyStr) :
    ((ops.foldl (fun st t => addTurn N st t.1 t.2) emptyRecord).turns.length ≤ N) ∧
    (r.summary <+: (addTurn N r q a).summary) ∧
    (r.turns.length = N → 0 < N →
      (addTurn N r q a).turns = r.turns.tail ++ [(q, a)] ∧
      (addTurn N r q a).summary =
        r.summary ++ summaryLine (r.turns.headD ([], []))) := by
  refine ⟨foldl_addTurn_length ops emptyRecord (by simp [emptyRecord]),
    addTurn_summary_grows N r q a, ?_⟩
  intro hlen hpos
  cases hturns : r.turns with
  | nil => rw [hturns] at hlen; simp at hlen; omega
  | cons t0 rest0 =>
    unfold addTurn
    rw [hturns]
    simp only [List.cons_append, List.length_cons, List.length_append,
      List.length_nil]
    rw [if_pos (by rw [hturns] at hlen; simp at hlen; omega)]
    simp [List.tail_cons, List.headD_cons]

/-- C8 witness: with max_turns 1 and one stored turn, add_turn evicts the
old turn into the summary and keeps only the new turn. -/
theorem C8_memory_bound_witness :
    (addTurn 1 ⟨[("q0".toCodes, "a0".toCodes)], []⟩
      ("q1".toCodes) ("a1".toCodes)).turns = [("q1".toCodes, "a1".toCodes)] ∧
    (addTurn 1 ⟨[("q0".toCodes, "a0".toCodes)], []⟩
      ("q1".toCodes) ("a1".toCodes)).summary =
      summaryLine (("q0".toCodes, "a0".toCodes)) := by
  have h := (C8_memory_bound 1 [] ⟨[("q0".toCodes, "a0".toCodes)], []⟩
    ("q1".toCodes) ("a1".toCodes)).2.2 (by decide) (by decide)
  exact ⟨by rw [h.1]; rfl, by rw [h.2]; rfl⟩

/-- C9: get_context never raises (it is a total function here); for an
unseen session id it returns the empty string and registers an empty
record under that id; and for every session id its result carries no
leading or trailing whitespace. -/
theorem C9_get_context (st : Store) (sid : PyStr) :
    (lookupStore st sid = none →
      (getContext st sid).1 = [] ∧
      (getContext st sid).2 = st ++ [(sid, emptyRecord)]) ∧
    (∀ c, ((getContext st sid).1.head? = some c → isSpaceCp c = false) ∧
          ((getContext st sid).1.getLast? = some c → isSpaceCp c = false)) := by
  constructor
  · intro hnone
    have hfind : st.find? (fun e => e.1 == sid) = none := by
      unfold lookupStore at hnone
      exact Option.map_eq_none.mp hnone
    have hens : ensureSession st sid = st ++ [(sid, emptyRecord)] := by
      unfold ensureSession
      rw [hnone]
      rfl
    have hlook : lookupStore (st ++ [(sid, emptyRecord)]) sid = some emptyRecord := by
      unfold lookupStore
      rw [List.find?_append, hfind]
      simp
    constructor
    · show pyStrip (rawContext
          ((lookupStore (ensureSession st sid) sid).getD emptyRecord)) = []
      rw [hens, hlook]
      rfl
    · show ensureSession st sid = st ++ [(sid, emptyRecord)]
      exact hens
  · intro c
    exact ⟨fun h => pyStrip_head_not_space h, fun h => pyStrip_last_not_space h⟩

/-- C9 witness: on the empty store and session id "s1" the context is
empty and the store gains the empty record for "s1". -/
theorem C9_get_context_witness :
    (getContext [] ("s1".toCodes)).1 = [] ∧
    (getContext [] ("s1".toCodes)).2 = [] ++ [("s1".toCodes, emptyRecord)] :=
  (C9_get_context [] ("s1".toCodes)).1 rfl

/-- C10: whatever the environment supplies (unset, empty, upper-case or
invalid strings), the constructed Settings object has RETRIEVAL_MODE in
the knn/mmr set and DEFAULT_RETURN_FORMAT in the text/json set, invalid
values being normalized to knn and text. -/
theorem C10_settings_normalized (envRM envRF : Option PyStr) :
    (retrievalModeOf envRM = "knn".toCodes ∨
     retrievalModeOf envRM = "mmr".toCodes) ∧
    (returnFormatOf envRF = "text".toCodes ∨
     returnFormatOf envRF = "json".toCodes) := by
  constructor
  · unfold retrievalModeOf
    by_cases h : pyLower (pyLower (envDefault envRM ("knn".toCodes))) = "knn".toCodes ∨
        pyLower (pyLower (envDefault envRM ("knn".toCodes))) = "mmr".toCodes
    · rw [if_pos h]
      rwa [pyLower_idem] at h
    · rw [if_neg h]
      exact Or.inl rfl
  · unfold returnFormatOf
    by_cases h : pyLower (pyLower (envDefault envRF ("text".toCodes))) = "text".toCodes ∨
        pyLower (pyLower (envDefault envRF ("text".toCodes))) = "json".toCodes
    · rw [if_pos h]
      rwa [pyLower_idem] at h
    · rw [if_neg h]
      exact Or.inl rfl

end RagSpec
